import Mathlib

/-!
Verification of the Polymarket price-aggregator pipeline
(`price_aggregator.py`).

The development shallowly embeds the program: JSON values (the shapes
produced by Python's `json` module) are the mutual inductive `JVal`;
fallible Python operations (`.get`, subscription, `int(...)`,
`json.loads`, iteration) return `Except PyExc`, where `PyExc`
distinguishes the exception classes relevant to the program's
`try/except` clauses; HTTP responses are an explicit `HttpResult`
oracle so every network interaction is a pure argument.  The timestamp
normalizer models `datetime.fromtimestamp(..., tz=utc).astimezone(US/Eastern)`
with the proleptic Gregorian calendar and the full US/Eastern
daylight-saving history of the tz database from 1970 on: last Sunday of
April through 1973 and again 1976-1986, the special 1974 (January 6) and
1975 (February 23) starts, first Sunday of April 1987-2006, second Sunday
of March from 2007; ending last Sunday of October through 2006 and first
Sunday of November from 2007, always at 07:00 / 06:00 UTC.
-/

/-- Exception classes distinguished by the program's `try/except` clauses.
`jsonDecodeError` doubles as `requests`' JSON decoding failure (a subclass
of both `ValueError` and `requests.exceptions.RequestException`). -/
inductive PyExc where
  | typeError
  | keyError
  | indexError
  | valueError
  | attributeError
  | jsonDecodeError
  | overflowError
  deriving DecidableEq

deriving instance DecidableEq for Except

mutual
/-- Values produced by Python's `json.loads` (plus `null`/booleans).
`nan` and `inf` are the floats produced by the nonstandard `NaN`,
`Infinity` and `-Infinity` literals that Python's decoder accepts. -/
inductive JVal where
  | null
  | bool (b : Bool)
  | num (q : ℚ)
  | nan
  | inf (neg : Bool)
  | str (s : String)
  | arr (xs : JList)
  | obj (fs : JFields)
  deriving DecidableEq
/-- A Python list of JSON values (mutual with `JVal`). -/
inductive JList where
  | nil
  | cons (hd : JVal) (tl : JList)
  deriving DecidableEq
/-- A Python dict with string keys (mutual with `JVal`), in insertion order. -/
inductive JFields where
  | nil
  | cons (k : String) (v : JVal) (tl : JFields)
  deriving DecidableEq
end

def JList.toList : JList → List JVal
  | .nil => []
  | .cons x t => x :: t.toList

def JList.ofList : List JVal → JList
  | [] => .nil
  | x :: t => .cons x (JList.ofList t)

def JFields.toList : JFields → List (String × JVal)
  | .nil => []
  | .cons k v t => (k, v) :: t.toList

def JFields.ofList : List (String × JVal) → JFields
  | [] => .nil
  | (k, v) :: t => .cons k v (JFields.ofList t)

/-- Dictionary lookup; on duplicate keys the later entry wins, as for a
dict built by repeated assignment (and by `json.loads`). -/
def JFields.lookup : JFields → String → Option JVal
  | .nil, _ => none
  | .cons k v t, key =>
    match t.lookup key with
    | some w => some w
    | none => if k = key then some v else none

/-- Python truthiness (`bool(v)`) for JSON-shaped values. -/
def py_truthy : JVal → Bool
  | .null => false
  | .bool b => b
  | .num q => decide (q.num ≠ 0)
  | .nan => true
  | .inf _ => true
  | .str s => !s.isEmpty
  | .arr .nil => false
  | .arr _ => true
  | .obj .nil => false
  | .obj _ => true

/-- Python `v.get(key, dflt)`: dict method; any non-dict receiver raises
`AttributeError`. -/
def py_get (v : JVal) (key : String) (dflt : JVal) : Except PyExc JVal :=
  match v with
  | .obj fs => .ok ((fs.lookup key).getD dflt)
  | _ => .error .attributeError

/-- Python `v[key]` for a string key: missing dict key raises `KeyError`;
subscribing a list/str/number/... with a string raises `TypeError`. -/
def py_getitem (v : JVal) (key : String) : Except PyExc JVal :=
  match v with
  | .obj fs =>
    match fs.lookup key with
    | some x => .ok x
    | none => .error .keyError
  | _ => .error .typeError

/-- Python `v[0]`: empty list/str raises `IndexError`; a dict raises `KeyError`
(its keys are strings, never the integer 0); scalars raise `TypeError`. -/
def py_getitem_zero (v : JVal) : Except PyExc JVal :=
  match v with
  | .arr .nil => .error .indexError
  | .arr (.cons x _) => .ok x
  | .str s =>
    match s.data with
    | [] => .error .indexError
    | c :: _ => .ok (.str (String.singleton c))
  | .obj _ => .error .keyError
  | _ => .error .typeError

def isDigitChar (c : Char) : Bool := decide ('0' ≤ c) && decide (c ≤ '9')

def digitsToNat (cs : List Char) : Nat :=
  cs.foldl (fun acc c => acc * 10 + (c.toNat - 48)) 0

/-- No two adjacent underscores (Python allows a single `_` only between
digits). -/
def noDoubleUnderscore : List Char → Bool
  | '_' :: '_' :: _ => false
  | _ :: rest => noDoubleUnderscore rest
  | [] => true

/-- An ASCII numeral as accepted by Python's `int()` after sign stripping:
nonempty, digits with single underscores strictly between digits. -/
def pyDigits (cs : List Char) : Bool :=
  !cs.isEmpty && isDigitChar (cs.headD 'x') && isDigitChar (cs.getLastD 'x') &&
    cs.all (fun x => isDigitChar x || x = '_') && noDoubleUnderscore cs

/-- Python `int(s)` for a string: strip whitespace, optional sign, decimal
digits with optional underscore separators between digits; otherwise
`ValueError`. (Non-ASCII unicode digits are outside the model.) -/
def pyIntOfString (s : String) : Except PyExc Int :=
  let cs := (((s.data.dropWhile Char.isWhitespace).reverse.dropWhile
      Char.isWhitespace).reverse)
  match cs with
  | '-' :: rest =>
    if pyDigits rest then .ok (-(digitsToNat (rest.filter isDigitChar) : Int))
    else .error .valueError
  | '+' :: rest =>
    if pyDigits rest then .ok (digitsToNat (rest.filter isDigitChar) : Int)
    else .error .valueError
  | rest =>
    if pyDigits rest then .ok (digitsToNat (rest.filter isDigitChar) : Int)
    else .error .valueError

/-- Python `int(v)`: numbers truncate toward zero, booleans coerce, strings
parse; `int(nan)` raises `ValueError`, `int(inf)` raises `OverflowError`,
everything else raises `TypeError`. -/
def py_int (v : JVal) : Except PyExc Int :=
  match v with
  | .num q => .ok (Int.tdiv q.num (q.den : Int))
  | .nan => .error .valueError
  | .inf _ => .error .overflowError
  | .bool b => .ok (if b then 1 else 0)
  | .str s => pyIntOfString s
  | _ => .error .typeError

/-- Python `iter(v)`: lists yield elements, strings yield one-character strings,
dicts yield their keys, scalars raise `TypeError`. -/
def py_iter (v : JVal) : Except PyExc (List JVal) :=
  match v with
  | .arr xs => .ok xs.toList
  | .str s => .ok (s.data.map (fun c => .str (String.singleton c)))
  | .obj fs => .ok (fs.toList.map (fun kv => .str kv.1))
  | _ => .error .typeError

/-! ## A model of `json.loads` (RFC 8259 grammar as accepted by Python)

`\uXXXX` string escapes and the nonstandard `NaN`/`Infinity` literals are
not modeled (no input of interest contains them); every other failure mode
of the grammar is rejected exactly as `json.JSONDecodeError`. -/

def skipWs : List Char → List Char
  | [] => []
  | c :: t => if c = ' ' ∨ c = '\t' ∨ c = '\n' ∨ c = '\r' then skipWs t else c :: t

/-- Hexadecimal digit value. -/
def hexVal (c : Char) : Option Nat :=
  if '0' ≤ c ∧ c ≤ '9' then some (c.toNat - 48)
  else if 'a' ≤ c ∧ c ≤ 'f' then some (c.toNat - 87)
  else if 'A' ≤ c ∧ c ≤ 'F' then some (c.toNat - 55)
  else none

/-- Parse the body of a JSON string after the opening quote, accumulating
decoded characters in reverse.  `\uXXXX` escapes decode code points,
combining surrogate pairs; unpaired surrogate units become U+FFFD (see the
section comment).  The fuel (consumed once per step, each of which eats at
least one input character) makes the recursion structural. -/
def parseStrAux : Nat → List Char → List Char → Except Unit (String × List Char)
  | 0, _, _ => .error ()
  | _+1, _, [] => .error ()
  | _+1, acc, '"' :: rest => .ok (String.mk acc.reverse, rest)
  | fuel+1, acc, '\\' :: 'u' :: h1 :: h2 :: h3 :: h4 :: rest =>
    match hexVal h1, hexVal h2, hexVal h3, hexVal h4 with
    | some a, some b, some c, some d =>
      let n := ((a * 16 + b) * 16 + c) * 16 + d
      if 0xD800 ≤ n ∧ n < 0xDC00 then
        match rest with
        | '\\' :: 'u' :: k1 :: k2 :: k3 :: k4 :: rest2 =>
          match hexVal k1, hexVal k2, hexVal k3, hexVal k4 with
          | some a2, some b2, some c2, some d2 =>
            let m := ((a2 * 16 + b2) * 16 + c2) * 16 + d2
            if 0xDC00 ≤ m ∧ m < 0xE000 then
              parseStrAux fuel
                (Char.ofNat (0x10000 + (n - 0xD800) * 0x400 + (m - 0xDC00)) :: acc) rest2
            else if 0xD800 ≤ m ∧ m < 0xDC00 then
              parseStrAux fuel (Char.ofNat 0xFFFD :: Char.ofNat 0xFFFD :: acc) rest2
            else
              parseStrAux fuel (Char.ofNat m :: Char.ofNat 0xFFFD :: acc) rest2
          | _, _, _, _ => .error ()
        | _ => parseStrAux fuel (Char.ofNat 0xFFFD :: acc) rest
      else if 0xDC00 ≤ n ∧ n < 0xE000 then
        parseStrAux fuel (Char.ofNat 0xFFFD :: acc) rest
      else parseStrAux fuel (Char.ofNat n :: acc) rest
    | _, _, _, _ => .error ()
  | fuel+1, acc, '\\' :: e :: rest =>
    match e with
    | '"' => parseStrAux fuel ('"' :: acc) rest
    | '\\' => parseStrAux fuel ('\\' :: acc) rest
    | '/' => parseStrAux fuel ('/' :: acc) rest
    | 'b' => parseStrAux fuel ('\x08' :: acc) rest
    | 'f' => parseStrAux fuel ('\x0c' :: acc) rest
    | 'n' => parseStrAux fuel ('\n' :: acc) rest
    | 'r' => parseStrAux fuel ('\r' :: acc) rest
    | 't' => parseStrAux fuel ('\t' :: acc) rest
    | _ => .error ()
  | _+1, _, ['\\'] => .error ()
  | fuel+1, acc, c :: rest =>
    if c.toNat < 32 then .error () else parseStrAux fuel (c :: acc) rest

/-- Assemble a JSON number from sign, mantissa numerator/denominator and
exponent, using only core rational constructors (kernel-reducible). -/
def assembleNumber (neg : Bool) (mn md : Nat) (eneg : Bool) (e : Nat) : ℚ :=
  let n : Int := if neg then -(mn : Int) else (mn : Int)
  if eneg then mkRat n (md * 10 ^ e) else mkRat (n * 10 ^ e) md

/-- Parse the optional exponent part and assemble the number. -/
def parseExpAssemble (mn md : Nat) (neg : Bool) (cs : List Char) :
    Except Unit (ℚ × List Char) :=
  match cs with
  | 'e' :: t | 'E' :: t =>
    let (eneg, t1) :=
      match t with
      | '-' :: t2 => (true, t2)
      | '+' :: t2 => (false, t2)
      | _ => (false, t)
    let (ds, t3) := t1.span isDigitChar
    if ds = [] then .error ()
    else .ok (assembleNumber neg mn md eneg (digitsToNat ds), t3)
  | _ => .ok (assembleNumber neg mn md false 0, cs)

/-- Parse a JSON number literal. -/
def parseNumber (cs : List Char) : Except Unit (ℚ × List Char) :=
  let (neg, cs1) :=
    match cs with
    | '-' :: t => (true, t)
    | _ => (false, cs)
  let (ds, cs2) := cs1.span isDigitChar
  if ds = [] then .error ()
  else if 1 < ds.length ∧ ds.head? = some '0' then .error ()
  else
    match cs2 with
    | '.' :: cs3 =>
      let (fs, cs4) := cs3.span isDigitChar
      if fs = [] then .error ()
      else parseExpAssemble (digitsToNat (ds ++ fs)) (10 ^ fs.length) neg cs4
    | _ => parseExpAssemble (digitsToNat ds) 1 neg cs2

mutual
/-- Parse one JSON value (fuel bounds the nesting depth; every recursive
call consumes at least one input character first). -/
def parseVal : Nat → List Char → Except Unit (JVal × List Char)
  | 0, _ => .error ()
  | fuel+1, cs =>
    match skipWs cs with
    | 'n' :: 'u' :: 'l' :: 'l' :: rest => .ok (.null, rest)
    | 't' :: 'r' :: 'u' :: 'e' :: rest => .ok (.bool true, rest)
    | 'f' :: 'a' :: 'l' :: 's' :: 'e' :: rest => .ok (.bool false, rest)
    | 'N' :: 'a' :: 'N' :: rest => .ok (.nan, rest)
    | 'I' :: 'n' :: 'f' :: 'i' :: 'n' :: 'i' :: 't' :: 'y' :: rest => .ok (.inf false, rest)
    | '-' :: 'I' :: 'n' :: 'f' :: 'i' :: 'n' :: 'i' :: 't' :: 'y' :: rest =>
      .ok (.inf true, rest)
    | '"' :: rest =>
      match parseStrAux (rest.length + 1) [] rest with
      | .ok (s, r) => .ok (.str s, r)
      | .error _ => .error ()
    | '[' :: rest =>
      match skipWs rest with
      | ']' :: r2 => .ok (.arr .nil, r2)
      | r1 =>
        match parseVal fuel r1 with
        | .error _ => .error ()
        | .ok (x, r2) =>
          match parseArrRest fuel r2 with
          | .error _ => .error ()
          | .ok (xs, r3) => .ok (.arr (.cons x xs), r3)
    | '\x7b' :: rest =>
      match skipWs rest with
      | '\x7d' :: r2 => .ok (.obj .nil, r2)
      | r1 =>
        match parseMember fuel r1 with
        | .error _ => .error ()
        | .ok (k, v, r2) =>
          match parseObjRest fuel r2 with
          | .error _ => .error ()
          | .ok (fs, r3) => .ok (.obj (.cons k v fs), r3)
    | cs1 =>
      match parseNumber cs1 with
      | .ok (q, r) => .ok (.num q, r)
      | .error _ => .error ()

/-- Parse the remainder of a JSON array after one element. -/
def parseArrRest : Nat → List Char → Except Unit (JList × List Char)
  | 0, _ => .error ()
  | fuel+1, cs =>
    match skipWs cs with
    | ']' :: rest => .ok (.nil, rest)
    | ',' :: rest =>
      match parseVal fuel rest with
      | .error _ => .error ()
      | .ok (x, r2) =>
        match parseArrRest fuel r2 with
        | .error _ => .error ()
        | .ok (xs, r3) => .ok (.cons x xs, r3)
    | _ => .error ()

/-- Parse one `"key": value` member of a JSON object. -/
def parseMember : Nat → List Char → Except Unit (String × JVal × List Char)
  | 0, _ => .error ()
  | fuel+1, cs =>
    match skipWs cs with
    | '"' :: rest =>
      match parseStrAux (rest.length + 1) [] rest with
      | .error _ => .error ()
      | .ok (k, r1) =>
        match skipWs r1 with
        | ':' :: r2 =>
          match parseVal fuel r2 with
          | .error _ => .error ()
          | .ok (v, r3) => .ok (k, v, r3)
        | _ => .error ()
    | _ => .error ()

/-- Parse the remainder of a JSON object after one member. -/
def parseObjRest : Nat → List Char → Except Unit (JFields × List Char)
  | 0, _ => .error ()
  | fuel+1, cs =>
    match skipWs cs with
    | '\x7d' :: rest => .ok (.nil, rest)
    | ',' :: rest =>
      match parseMember fuel rest with
      | .error _ => .error ()
      | .ok (k, v, r2) =>
        match parseObjRest fuel r2 with
        | .error _ => .error ()
        | .ok (fs, r3) => .ok (.cons k v fs, r3)
    | _ => .error ()
end

/-- Model of `json.loads` on a string: parse one value and require only trailing
whitespace after it. -/
def parseJson (s : String) : Except Unit JVal :=
  match parseVal (s.length + 1) s.data with
  | .error _ => .error ()
  | .ok (v, rest) => if skipWs rest = [] then .ok v else .error ()

/-- Model of `json.loads(v)` as called by `process_market`: a non-string argument
raises `TypeError`; a failed parse raises `json.JSONDecodeError`. -/
def json_loads (v : JVal) : Except PyExc JVal :=
  match v with
  | .str s =>
    match parseJson s with
    | .ok j => .ok j
    | .error _ => .error .jsonDecodeError
  | _ => .error .typeError

/-! ## Timestamp normalizer (`convert_to_eastern`)

Models `datetime.fromtimestamp(t, tz=timezone.utc).astimezone(EASTERN_TZ)
.strftime('%Y-%m-%d %H:%M:%S') + " ET"` on the proleptic Gregorian
calendar with the post-2007 United States daylight-saving rule. -/

def isLeap (y : Nat) : Bool := (y % 4 == 0 && y % 100 != 0) || y % 400 == 0

def daysInYear (y : Nat) : Nat := if isLeap y then 366 else 365

def daysInMonth (y : Nat) : Nat → Nat
  | 2 => if isLeap y then 29 else 28
  | 4 => 30
  | 6 => 30
  | 9 => 30
  | 11 => 30
  | _ => 31

/-- Locate the year containing day offset `d` (counting from year `y`),
returning the year and the remaining day-of-year; `fuel` bounds the search. -/
def yearFromDays : Nat → Nat → Nat → Nat × Nat
  | 0, y, d => (y, d)
  | fuel+1, y, d =>
    if d < daysInYear y then (y, d) else yearFromDays fuel (y+1) (d - daysInYear y)

/-- Locate the month containing day-of-year offset `d` (counting from month
`m` of year `y`), returning the month and remaining zero-based day offset. -/
def monthFromDoy (y : Nat) : Nat → Nat → Nat → Nat × Nat
  | 0, m, d => (m, d)
  | fuel+1, m, d =>
    if d < daysInMonth y m then (m, d) else monthFromDoy y fuel (m+1) (d - daysInMonth y m)

/-- A civil date-time in a local calendar. -/
structure Civil where
  year : Nat
  month : Nat
  day : Nat
  hour : Nat
  minute : Nat
  second : Nat
  deriving DecidableEq

def yearFuel : Nat := 9000

def civilFromSeconds (ls : Nat) : Civil :=
  let days := ls / 86400
  let secs := ls % 86400
  let yd := yearFromDays yearFuel 1970 days
  let md := monthFromDoy yd.1 12 1 yd.2
  ⟨yd.1, md.1, md.2 + 1, secs / 3600, secs % 3600 / 60, secs % 60⟩

/-- Zero-padded two-digit decimal numeral (for values below 100). -/
def pad2 (n : Nat) : String := String.mk [Nat.digitChar (n / 10), Nat.digitChar (n % 10)]

/-- Zero-padded four-digit decimal numeral (for values below 10000). -/
def pad4 (n : Nat) : String := pad2 (n / 100) ++ pad2 (n % 100)

/-- Format `strftime('%Y-%m-%d %H:%M:%S')`. -/
def fmtCivil (c : Civil) : String :=
  pad4 c.year ++ "-" ++ pad2 c.month ++ "-" ++ pad2 c.day ++ " " ++
    pad2 c.hour ++ ":" ++ pad2 c.minute ++ ":" ++ pad2 c.second

/-- Days in year `y` before month `m` (months counted from 1). -/
def daysBeforeMonth (y : Nat) : Nat → Nat
  | 0 => 0
  | 1 => 0
  | m+2 => daysBeforeMonth y (m+1) + daysInMonth y (m+1)

/-- Total days in the years `[base, base + n)`. -/
def yearDaysFrom (base : Nat) : Nat → Nat
  | 0 => 0
  | n+1 => yearDaysFrom base n + daysInYear (base + n)

/-- Day count (since 1970-01-01) of January 1st of year `y`. -/
def yStart (y : Nat) : Nat := yearDaysFrom 1970 (y - 1970)

def daysFromCivil (y m d : Nat) : Nat := yStart y + daysBeforeMonth y m + (d - 1)

def secondsFromCivil (c : Civil) : Nat :=
  daysFromCivil c.year c.month c.day * 86400 +
    c.hour * 3600 + c.minute * 60 + c.second

/-- Day of week (0 = Sunday) of a day count since 1970-01-01 (a Thursday). -/
def weekday (days : Nat) : Nat := (days + 4) % 7

/-- Day count of the first Sunday of month `m` in year `y`. -/
def firstSunday (y m : Nat) : Nat :=
  let d1 := yStart y + daysBeforeMonth y m
  d1 + (7 - weekday d1) % 7

/-- Day count of the last Sunday of month `m` in year `y`. -/
def lastSunday (y m : Nat) : Nat :=
  let dend := yStart y + daysBeforeMonth y m + daysInMonth y m - 1
  dend - weekday dend

/-- Day count on which US daylight-saving time begins in year `y`, per the
tz database's US/Eastern history from 1970 on: last Sunday of April
through 1973 and 1976-1986, January 6 in 1974, February 23 in 1975, first
Sunday of April 1987-2006, second Sunday of March from 2007. -/
def dstStartDay (y : Nat) : Nat :=
  if y = 1974 then yStart 1974 + 5
  else if y = 1975 then yStart 1975 + 53
  else if y < 1987 then lastSunday y 4
  else if y < 2007 then firstSunday y 4
  else firstSunday y 3 + 7

/-- Day count on which US daylight-saving time ends in year `y`: last
Sunday of October through 2006, first Sunday of November from 2007. -/
def dstEndDay (y : Nat) : Nat :=
  if y < 2007 then lastSunday y 10 else firstSunday y 11

/-- UTC second at which US daylight-saving time begins in year `y`
(02:00 local standard time = 07:00 UTC on `dstStartDay`). -/
def dstStart (y : Nat) : Nat := dstStartDay y * 86400 + 7 * 3600

/-- UTC second at which US daylight-saving time ends in year `y`
(02:00 local daylight time = 06:00 UTC on `dstEndDay`). -/
def dstEnd (y : Nat) : Nat := dstEndDay y * 86400 + 6 * 3600

/-- UTC offset, in seconds, of US/Eastern at UTC instant `t`. -/
def eastern_offset (t : Nat) : Int :=
  let y := (yearFromDays yearFuel 1970 (t / 86400)).1
  if dstStart y ≤ t ∧ t < dstEnd y then -14400 else -18000

/-- Seconds of Eastern local (wall-clock) time since 1970-01-01T00:00:00
local, for UTC instants at or after 1970-01-01T05:00:00Z. -/
def easternLocalSeconds (t : Nat) : Nat := ((t : Int) + eastern_offset t).toNat

/-- Model of `convert_to_eastern` (price_aggregator.py line 62): Unix seconds to the
formatted US/Eastern wall-clock string with a literal " ET" suffix. -/
def convert_to_eastern (t : Nat) : String :=
  fmtCivil (civilFromSeconds (easternLocalSeconds t)) ++ " ET"

/-- Upper end of the modeled timestamp domain (late in year 9992, safely
inside `datetime`'s year ≤ 9999 range). -/
def maxModeledTs : Nat := 253202543999

/-- Model of `datetime.fromtimestamp(v, tz=utc)` as used on `data_point["t"]`,
restricted to the modeled domain: integral seconds from
1970-01-01T05:00:00Z (so Eastern local time is non-negative) up to
`maxModeledTs`; values outside this window are flagged out-of-domain, and
non-numbers raise `TypeError` exactly as `fromtimestamp` does. -/
def py_timestamp (v : JVal) : Except PyExc Nat :=
  match v with
  | .num q =>
    if q.den = 1 ∧ 18000 ≤ q.num ∧ q.num ≤ (maxModeledTs : Int) then .ok q.num.toNat
    else .error .valueError
  | .nan => .error .valueError
  | .inf _ => .error .overflowError
  | .bool _ => .error .valueError
  | _ => .error .typeError

/-! ## HTTP model and pipeline -/

/-- Outcome of one HTTP GET: either a `requests.exceptions.RequestException`
(transport failure or, via `raise_for_status`, a non-2xx reply) or a
2xx reply carrying a body string. -/
inductive HttpResult where
  | failure
  | success (body : String)

/-- Model of `fetch_event_data` (line 15): transport/status failures and JSON decode
failures (a `RequestException` subclass in requests ≥ 2.27) yield `None`. -/
def fetch_event_data (resp : HttpResult) : Option JVal :=
  match resp with
  | .failure => none
  | .success body =>
    match parseJson body with
    | .ok v => some v
    | .error _ => none

/-- Model of `fetch_historical_prices` (line 46): transport/status/decode failures
yield `[]`; a decoded non-dict body makes `.get` raise `AttributeError`,
which the `except RequestException` clause does not catch. -/
def fetch_historical_prices (resp : HttpResult) : Except PyExc JVal :=
  match resp with
  | .failure => .ok (.arr .nil)
  | .success body =>
    match parseJson body with
    | .error _ => .ok (.arr .nil)
    | .ok v => py_get v "history" (.arr .nil)

/-- The body of `process_market`'s try block up to the token id:
`json.loads(token_id_str)`, `token_ids[0]`, `int(...)`. -/
def extractToken (tokenIdVal : JVal) : Except PyExc Int := do
  let token_ids ← json_loads tokenIdVal
  let first ← py_getitem_zero token_ids
  py_int first

/-- The exception classes named by `process_market`'s except clause:
`json.JSONDecodeError`, `IndexError`, `ValueError`. -/
def caughtByProcessMarket (e : PyExc) : Bool :=
  match e with
  | .jsonDecodeError => true
  | .indexError => true
  | .valueError => true
  | _ => false

/-- Model of `process_market` (line 25): returns the question together with
`Some`(history) on token success, or `None` when the token extraction
raised one of the caught classes; other exceptions propagate. -/
def process_market (priceResp : Int → HttpResult) (market : JVal) (index : Nat) :
    Except PyExc (JVal × Option JVal) := do
  let tokenIdVal ← py_get market "clobTokenIds" (.str "N/A")
  let question ← py_get market "question" (.str ("Market " ++ Nat.repr (index + 1)))
  match extractToken tokenIdVal with
  | .ok tok => do
    let h ← fetch_historical_prices (priceResp tok)
    pure (question, some h)
  | .error e =>
    if caughtByProcessMarket e then pure (question, none) else .error e

/-- The aggregation table `combined_data`: timestamp string → question →
price, both dicts kept in insertion order with unique keys. -/
abbrev AggTable := List (String × List (JVal × JVal))

/-- Assoc-list (dict) lookup. -/
def alistGet {κ α : Type} [DecidableEq κ] : List (κ × α) → κ → Option α
  | [], _ => none
  | (k, v) :: t, key => if k = key then some v else alistGet t key

/-- Dict assignment `d[k] = v`: replaces the value in place, or appends. -/
def alistSet {κ α : Type} [DecidableEq κ] : List (κ × α) → κ → α → List (κ × α)
  | [], key, v => [(key, v)]
  | (k, w) :: t, key, v => if k = key then (k, v) :: t else (k, w) :: alistSet t key v

/-- Assignment `combined_data[timestamp_str][question] = price` (line 120, with
`defaultdict(dict)` semantics); an unhashable question (list/dict)
raises `TypeError`. -/
def aggPut (tbl : AggTable) (ts : String) (q p : JVal) : Except PyExc AggTable :=
  match q with
  | .arr _ => .error .typeError
  | .obj _ => .error .typeError
  | _ => .ok (alistSet tbl ts (alistSet ((alistGet tbl ts).getD []) q p))

/-- The inner loop over `price_history` (lines 116-120): for each point,
read `["t"]`, normalize, read `["p"]`, store. -/
def ingest (q : JVal) : AggTable → List JVal → Except PyExc AggTable
  | tbl, [] => .ok tbl
  | tbl, dp :: rest => do
    let tv ← py_getitem dp "t"
    let t ← py_timestamp tv
    let timestamp_str := convert_to_eastern t
    let p ← py_getitem dp "p"
    let tbl2 ← aggPut tbl timestamp_str q p
    ingest q tbl2 rest

/-- The outer loop over `enumerate(markets)` (lines 104-120), accumulating
`market_questions` and `combined_data`. -/
def runMarkets (priceResp : Int → HttpResult) :
    List JVal → Nat → List JVal → AggTable → Except PyExc (List JVal × AggTable)
  | [], _, qs, tbl => .ok (qs, tbl)
  | market :: rest, idx, qs, tbl => do
    let r ← process_market priceResp market idx
    let qs2 := qs ++ [r.1]
    match r.2 with
    | none => runMarkets priceResp rest (idx+1) qs2 tbl
    | some h =>
      if !py_truthy h then runMarkets priceResp rest (idx+1) qs2 tbl
      else do
        let pts ← py_iter h
        let tbl2 ← ingest r.1 tbl pts
        runMarkets priceResp rest (idx+1) qs2 tbl2

/-- Model of `export_combined_csv` (line 68): the rows written to the CSV file —
header first, then one row per timestamp key in sorted (lexicographic)
order; a missing (timestamp, question) cell renders as the empty string. -/
def export_combined_csv (all_data : AggTable) (questions : List JVal) :
    List (List JVal) :=
  let sorted_timestamps :=
    List.insertionSort (fun a b => a.data ≤ b.data) (all_data.map Prod.fst)
  (JVal.str "Timestamp (ET)" :: questions) ::
    sorted_timestamps.map (fun ts =>
      JVal.str ts ::
        questions.map (fun q =>
          (alistGet ((alistGet all_data ts).getD []) q).getD (.str "")))

/-- Model of `main` (line 84) after the event fetch: `none` means the run ended
without writing a file; `some rows` are the rows written to the file;
`Except.error` is an uncaught exception aborting the process. -/
def mainWithEvent (ev : Option JVal) (priceResp : Int → HttpResult) :
    Except PyExc (Option (List (List JVal))) :=
  match ev with
  | none => .ok none
  | some event_data =>
    if !py_truthy event_data then .ok none
    else do
      let primary_event ←
        (match event_data with
          | .arr .nil => Except.error PyExc.indexError
          | .arr (.cons x _) => Except.ok x
          | w => Except.ok w)
      let markets ← py_get primary_event "markets" (.arr .nil)
      if !py_truthy markets then pure none
      else do
        let items ← py_iter markets
        let r ← runMarkets priceResp items 0 [] []
        if r.2 ≠ [] then pure (some (export_combined_csv r.2 r.1))
        else pure none

/-- Model of `main` (line 84) with both network interactions abstracted as pure
oracles: the event response and the per-token price-history response. -/
def pipeline_main (eventResp : HttpResult) (priceResp : Int → HttpResult) :
    Except PyExc (Option (List (List JVal))) :=
  mainWithEvent (fetch_event_data eventResp) priceResp

/-! ## Derived notions used by the statements -/

/-- First cell of a CSV row, as the timestamp string it holds. -/
def rowTs : List JVal → String
  | .str s :: _ => s
  | _ => ""

/-- Timestamp strings of the data rows (everything after the header). -/
def rowTimestamps (rows : List (List JVal)) : List String := rows.tail.map rowTs

/-- The questions `main`'s loop accumulates for `markets`, one per market
in encounter order, independent of any price data: the `question` field or
the positional `"Market i+1"` default (after the `clobTokenIds` read that
`process_market` performs first). -/
def questionsOf : List JVal → Nat → Except PyExc (List JVal)
  | [], _ => .ok []
  | m :: rest, idx => do
    let _ ← py_get m "clobTokenIds" (.str "N/A")
    let q ← py_get m "question" (.str ("Market " ++ Nat.repr (idx + 1)))
    let qs ← questionsOf rest (idx + 1)
    pure (q :: qs)

/-- The §3 invariant: both levels of the table are genuine dicts (unique
keys), so each (timestamp, question) cell holds at most one price. -/
def tableWF (tbl : AggTable) : Prop :=
  (tbl.map Prod.fst).Nodup ∧ ∀ inner ∈ tbl.map Prod.snd, (inner.map Prod.fst).Nodup

/-- The aggregated price stored at cell (ts, q), if any. -/
def cellGet (tbl : AggTable) (ts : String) (q : JVal) : Option JVal :=
  alistGet ((alistGet tbl ts).getD []) q

/-- Range constraints satisfied by every output of `civilFromSeconds`. -/
def validCivil (c : Civil) : Prop :=
  1970 ≤ c.year ∧ 1 ≤ c.month ∧ c.month ≤ 12 ∧ 1 ≤ c.day ∧
    c.day ≤ daysInMonth c.year c.month ∧ c.hour < 24 ∧ c.minute < 60 ∧ c.second < 60

/-- Mixed-radix numeric key whose order coincides, on valid civil tuples
with a four-digit year, with lexicographic order of the formatted string. -/
def civilKey (c : Civil) : Nat :=
  ((((c.year * 100 + c.month) * 100 + c.day) * 100 + c.hour) * 100 + c.minute) * 100 +
    c.second

/-! ## Concrete inputs exercised by the statements -/

/-- Event body: two markets, `Q1` with token `"111"`, `Q2` with token
`"222"`. -/
def twoMarketEventBody : String :=
  "[\x7b\"markets\": [\x7b\"question\": \"Q1\", \"clobTokenIds\": \"[\\\"111\\\"]\"\x7d, \x7b\"question\": \"Q2\", \"clobTokenIds\": \"[\\\"222\\\"]\"\x7d]\x7d]"

/-- Price histories: token 111 has one point (t = 1700000000, p = 0.5),
token 222 has an empty history. -/
def twoMarketPriceResp : Int → HttpResult := fun tok =>
  if tok = 111 then
    .success "\x7b\"history\": [\x7b\"t\": 1700000000, \"p\": 0.5\x7d]\x7d"
  else .success "\x7b\"history\": []\x7d"

/-- Event body: two markets sharing the question `Q`, tokens `"111"` and
`"222"`. -/
def dupQuestionEventBody : String :=
  "[\x7b\"markets\": [\x7b\"question\": \"Q\", \"clobTokenIds\": \"[\\\"111\\\"]\"\x7d, \x7b\"question\": \"Q\", \"clobTokenIds\": \"[\\\"222\\\"]\"\x7d]\x7d]"

/-- Price histories for the duplicate-question event: both tokens have one
point at the same timestamp, with prices 0.4 and 0.42. -/
def dupQuestionPriceResp : Int → HttpResult := fun tok =>
  if tok = 111 then
    .success "\x7b\"history\": [\x7b\"t\": 1700000000, \"p\": 0.4\x7d]\x7d"
  else .success "\x7b\"history\": [\x7b\"t\": 1700000000, \"p\": 0.42\x7d]\x7d"

/-- One history point `t = 1700000000, p = 0.4` as a decoded value. -/
def point40 : JVal :=
  .obj (.cons "t" (.num (mkRat 1700000000 1)) (.cons "p" (.num (mkRat 2 5)) .nil))

/-- One history point `t = 1700000010, p = 0.42` (same Eastern minute as
`point40`, different second). -/
def point42 : JVal :=
  .obj (.cons "t" (.num (mkRat 1700000010 1)) (.cons "p" (.num (mkRat 21 50)) .nil))

/-- One history point `t = 1762062000, p = 0.4` (01:40:00 EDT on the 2025
fall-back morning). -/
def dstPoint40 : JVal :=
  .obj (.cons "t" (.num (mkRat 1762062000 1)) (.cons "p" (.num (mkRat 2 5)) .nil))

/-- One history point `t = 1762065600, p = 0.42`: one hour after
`dstPoint40`, yet the same Eastern wall-clock second (01:40:00 EST). -/
def dstPoint42 : JVal :=
  .obj (.cons "t" (.num (mkRat 1762065600 1)) (.cons "p" (.num (mkRat 21 50)) .nil))

/-! ## Helper lemmas -/

theorem alistGet_alistSet_self {κ α : Type} [DecidableEq κ] (l : List (κ × α)) (k : κ) (v : α) :
    alistGet (alistSet l k v) k = some v := by
  induction l with
  | nil => simp [alistGet, alistSet]
  | cons h t ih =>
    obtain ⟨k1, v1⟩ := h
    by_cases hk : k1 = k <;> simp [alistGet, alistSet, hk, ih]

theorem mem_map_fst_alistSet {κ α : Type} [DecidableEq κ] (l : List (κ × α)) (k x : κ) (v : α) :
    x ∈ (alistSet l k v).map Prod.fst ↔ x ∈ l.map Prod.fst ∨ x = k := by
  induction l with
  | nil => simp [alistSet]
  | cons h t ih =>
    obtain ⟨k1, v1⟩ := h
    by_cases hk : k1 = k <;> simp [alistSet, hk, ih] <;> tauto

theorem nodup_map_fst_alistSet {κ α : Type} [DecidableEq κ] (l : List (κ × α)) (k : κ) (v : α)
    (h : (l.map Prod.fst).Nodup) : ((alistSet l k v).map Prod.fst).Nodup := by
  induction l with
  | nil => simp [alistSet]
  | cons hd t ih =>
    obtain ⟨k1, v1⟩ := hd
    simp only [List.map_cons, List.nodup_cons] at h
    by_cases hk : k1 = k
    · simp [alistSet, hk, List.nodup_cons]
      exact ⟨by simpa [hk] using h.1, h.2⟩
    · simp only [alistSet, hk, if_false, List.map_cons, List.nodup_cons,
        mem_map_fst_alistSet]
      exact ⟨by tauto, ih h.2⟩

theorem mem_map_snd_alistSet {κ α : Type} [DecidableEq κ] (l : List (κ × α)) (k : κ)
    (v inner : α) (h : inner ∈ (alistSet l k v).map Prod.snd) :
    inner ∈ l.map Prod.snd ∨ inner = v := by
  induction l with
  | nil => simpa [alistSet] using h
  | cons hd t ih =>
    obtain ⟨k1, v1⟩ := hd
    by_cases hk : k1 = k
    · simp only [alistSet, hk, if_true, List.map_cons, List.mem_cons] at h
      rcases h with h | h
      · right; exact h
      · left; simp [h]
    · simp only [alistSet, hk, if_false, List.map_cons, List.mem_cons] at h
      rcases h with h | h
      · left; simp [h]
      · rcases ih h with h2 | h2
        · left; simp [h2]
        · right; exact h2

theorem alistGet_mem_map_snd {κ α : Type} [DecidableEq κ] (l : List (κ × α)) (k : κ) (v : α)
    (h : alistGet l k = some v) : v ∈ l.map Prod.snd := by
  induction l with
  | nil => simp [alistGet] at h
  | cons hd t ih =>
    obtain ⟨k1, v1⟩ := hd
    by_cases hk : k1 = k
    · simp only [alistGet, hk, if_true, Option.some.injEq] at h
      simp [h]
    · simp only [alistGet, hk, if_false] at h
      simp [ih h]

/-! ## Claim theorems -/

/-- C8: an event payload whose `markets` list is empty — bare or wrapped in
a list — ends the run with no exception and no output file; so does any run
whose market loop completes with an empty aggregation table. -/
theorem c8_graceful_empty :
    (∀ (fs : JFields) (pr : Int → HttpResult),
      JFields.lookup fs "markets" = some (.arr .nil) →
      mainWithEvent (some (.obj fs)) pr = .ok none)
  ∧ (∀ (fs : JFields) (rest : JList) (pr : Int → HttpResult),
      JFields.lookup fs "markets" = some (.arr .nil) →
      mainWithEvent (some (.arr (.cons (.obj fs) rest))) pr = .ok none)
  ∧ (∀ (fs : JFields) (pr : Int → HttpResult) (mv : JVal) (items qs : List JVal),
      JFields.lookup fs "markets" = some mv →
      py_iter mv = .ok items →
      runMarkets pr items 0 [] [] = .ok (qs, []) →
      mainWithEvent (some (.obj fs)) pr = .ok none) := by
  refine ⟨?_, ?_, ?_⟩
  · intro fs pr hm
    cases fs with
    | nil => simp [JFields.lookup] at hm
    | cons k v t =>
      simp [mainWithEvent, py_truthy, py_get, hm, py_iter, Except.instMonad, Except.bind,
        Except.pure]
  · intro fs rest pr hm
    cases fs with
    | nil => simp [JFields.lookup] at hm
    | cons k v t =>
      simp [mainWithEvent, py_truthy, py_get, hm, py_iter, Except.instMonad, Except.bind,
        Except.pure]
  · intro fs pr mv items qs hm hit hrun
    cases fs with
    | nil => simp [JFields.lookup] at hm
    | cons k v t =>
      have hobj : py_truthy (JVal.obj (JFields.cons k v t)) = true := rfl
      by_cases htr : py_truthy mv = true
      · simp [mainWithEvent, py_get, hm, hobj, htr, hit, hrun,
          Except.instMonad, Except.bind, Except.pure]
      · have htr2 : py_truthy mv = false := by
          revert htr; cases py_truthy mv <;> simp
        simp [mainWithEvent, py_get, hm, hobj, htr2,
          Except.instMonad, Except.bind, Except.pure]

/-- C8 witness: the concrete empty-markets event with failing price fetches. -/
theorem c8_graceful_empty_witness :
    mainWithEvent (some (.obj (.cons "markets" (.arr .nil) .nil))) (fun _ => .failure) =
      .ok none :=
  c8_graceful_empty.1 (.cons "markets" (.arr .nil) .nil) (fun _ => .failure) (by decide)

/-- C10: a falsy event payload (empty list, empty object, ...) ends the run
through the same no-event branch as a failed fetch, and a truthy object
without a `markets` key ends it exactly like an explicitly empty markets
list: cleanly, with no output file. -/
theorem c10_falsy_or_missing_markets :
    (∀ pr : Int → HttpResult, mainWithEvent none pr = .ok none)
  ∧ (∀ (v : JVal) (pr : Int → HttpResult), py_truthy v = false →
      mainWithEvent (some v) pr = .ok none)
  ∧ (∀ (fs : JFields) (pr : Int → HttpResult), JFields.lookup fs "markets" = none →
      mainWithEvent (some (.obj fs)) pr = .ok none
      ∧ mainWithEvent (some (.obj fs)) pr =
          mainWithEvent (some (.obj (.cons "markets" (.arr .nil) fs))) pr) := by
  refine ⟨?_, ?_, ?_⟩
  · intro pr; rfl
  · intro v pr hf; simp [mainWithEvent, hf]
  · intro fs pr hm
    have h1 : mainWithEvent (some (.obj fs)) pr = .ok none := by
      cases fs with
      | nil => simp [mainWithEvent, py_truthy]
      | cons k v t =>
        simp [mainWithEvent, py_truthy, py_get, hm, Except.instMonad, Except.bind,
          Except.pure]
    refine ⟨h1, ?_⟩
    rw [h1]
    have h2 : JFields.lookup (.cons "markets" (.arr .nil) fs) "markets" =
        some (.arr .nil) := by
      simp [JFields.lookup, hm]
    simp [mainWithEvent, py_truthy, py_get, h2, Except.instMonad, Except.bind, Except.pure]

/-- C10 witness: the empty-object payload and an object without `markets`. -/
theorem c10_falsy_or_missing_markets_witness :
    mainWithEvent (some (.obj .nil)) (fun _ => .failure) = .ok none
    ∧ mainWithEvent (some (.obj (.cons "a" .null .nil))) (fun _ => .failure) = .ok none :=
  ⟨c10_falsy_or_missing_markets.2.1 (.obj .nil) (fun _ => .failure) (by decide),
   (c10_falsy_or_missing_markets.2.2 (.cons "a" .null .nil) (fun _ => .failure) (by decide)).1⟩

theorem process_market_ok_question (pr : Int → HttpResult) (m : JVal) (idx : Nat)
    (q : JVal) (ho : Option JVal)
    (h : process_market pr m idx = .ok (q, ho)) :
    ∃ tv, py_get m "clobTokenIds" (.str "N/A") = .ok tv
      ∧ py_get m "question" (.str ("Market " ++ Nat.repr (idx + 1))) = .ok q := by
  cases hg1 : py_get m "clobTokenIds" (.str "N/A") with
  | error e => simp [process_market, hg1, Except.instMonad, Except.bind] at h
  | ok tv =>
    cases hg2 : py_get m "question" (.str ("Market " ++ Nat.repr (idx + 1))) with
    | error e => simp [process_market, hg1, hg2, Except.instMonad, Except.bind] at h
    | ok qv =>
      have hq : qv = q := by
        cases he : extractToken tv with
        | ok tok =>
          cases hf : fetch_historical_prices (pr tok) with
          | error e =>
            simp [process_market, hg1, hg2, he, hf, Except.instMonad, Except.bind] at h
          | ok hv =>
            simp [process_market, hg1, hg2, he, hf, Except.instMonad, Except.bind,
              Except.pure] at h
            exact h.1
        | error e =>
          by_cases hc : caughtByProcessMarket e = true
          · simp [process_market, hg1, hg2, he, hc, Except.instMonad, Except.bind,
              Except.pure] at h
            exact h.1
          · simp [process_market, hg1, hg2, he, hc, Except.instMonad, Except.bind] at h
      exact ⟨tv, rfl, by rw [hq]⟩

theorem runMarkets_questions (pr : Int → HttpResult) :
    ∀ (items : List JVal) (idx : Nat) (qs0 : List JVal) (tbl0 : AggTable)
      (qs : List JVal) (tbl : AggTable),
      runMarkets pr items idx qs0 tbl0 = .ok (qs, tbl) →
      ∃ qs1, questionsOf items idx = .ok qs1 ∧ qs = qs0 ++ qs1 := by
  intro items
  induction items with
  | nil =>
    intro idx qs0 tbl0 qs tbl h
    simp [runMarkets] at h
    exact ⟨[], by simp [questionsOf], by simp [h.1]⟩
  | cons m rest ih =>
    intro idx qs0 tbl0 qs tbl h
    cases hp : process_market pr m idx with
    | error e => simp [runMarkets, hp, Except.instMonad, Except.bind] at h
    | ok r =>
      obtain ⟨q, ho⟩ := r
      obtain ⟨tv, hg1, hg2⟩ := process_market_ok_question pr m idx q ho hp
      have hrec : ∃ tbl1, runMarkets pr rest (idx+1) (qs0 ++ [q]) tbl1 = .ok (qs, tbl) := by
        cases ho with
        | none =>
          refine ⟨tbl0, ?_⟩
          simpa [runMarkets, hp, Except.instMonad, Except.bind] using h
        | some hv =>
          by_cases htr : py_truthy hv = true
          · cases hi : py_iter hv with
            | error e =>
              simp [runMarkets, hp, htr, hi, Except.instMonad, Except.bind] at h
            | ok pts =>
              cases hin : ingest q tbl0 pts with
              | error e =>
                simp [runMarkets, hp, htr, hi, hin, Except.instMonad, Except.bind] at h
              | ok tbl2 =>
                refine ⟨tbl2, ?_⟩
                simpa [runMarkets, hp, htr, hi, hin, Except.instMonad, Except.bind] using h
          · have htr2 : py_truthy hv = false := by
              revert htr; cases py_truthy hv <;> simp
            refine ⟨tbl0, ?_⟩
            simpa [runMarkets, hp, htr2, Except.instMonad, Except.bind] using h
      obtain ⟨tbl1, hr⟩ := hrec
      obtain ⟨qs1, hq1, hq2⟩ := ih (idx+1) (qs0 ++ [q]) tbl1 qs tbl hr
      refine ⟨q :: qs1, ?_, by simp [hq2]⟩
      simp [questionsOf, hg1, hg2, hq1, Except.instMonad, Except.bind, Except.pure]

/-- C5: whenever the market loop completes, the accumulated header
questions are exactly the per-market question labels in first-encounter
order — computed by `questionsOf` independently of any price response —
and the exported header row is `"Timestamp (ET)"` followed by them. -/
theorem c5_header_order (pr : Int → HttpResult) (items qs : List JVal) (tbl : AggTable)
    (h : runMarkets pr items 0 [] [] = .ok (qs, tbl)) :
    questionsOf items 0 = .ok qs
    ∧ (export_combined_csv tbl qs).head? = some (.str "Timestamp (ET)" :: qs) := by
  obtain ⟨qs1, hq1, hq2⟩ := runMarkets_questions pr items 0 [] [] qs tbl h
  constructor
  · rw [hq1, hq2]; simp
  · simp [export_combined_csv]

/-- C5 witness: one market with question `Q1` whose price fetch fails. -/
theorem c5_header_order_witness :
    questionsOf
        [JVal.obj (.cons "question" (.str "Q1") (.cons "clobTokenIds" (.str "[\"111\"]") .nil))]
        0 = .ok [.str "Q1"]
    ∧ (export_combined_csv []
        [JVal.str "Q1"]).head? = some (.str "Timestamp (ET)" :: [.str "Q1"]) :=
  c5_header_order (fun _ => .failure)
    [JVal.obj (.cons "question" (.str "Q1") (.cons "clobTokenIds" (.str "[\"111\"]") .nil))]
    [.str "Q1"] [] (by decide)

/-- C6: for every timestamp key present in the table and every question at
position `i` of the header list, the exported data row for that timestamp
carries the stored price at position `i+1` when the cell is present, and
the empty string — not zero and not a null marker — when it is absent. -/
theorem c6_sparse_cells (tbl : AggTable) (qs : List JVal) (ts : String) (q : JVal) (i : Nat)
    (hts : ts ∈ tbl.map Prod.fst) (hq : qs[i]? = some q) :
    ∃ row ∈ (export_combined_csv tbl qs).tail,
      row.head? = some (.str ts)
      ∧ (∀ p, cellGet tbl ts q = some p → row[i+1]? = some p)
      ∧ (cellGet tbl ts q = none → row[i+1]? = some (.str "")) := by
  have hperm := List.perm_insertionSort
    (fun a b : String => a.data ≤ b.data) (tbl.map Prod.fst)
  have hmem : ts ∈ List.insertionSort (fun a b : String => a.data ≤ b.data)
      (tbl.map Prod.fst) := hperm.mem_iff.mpr hts
  refine ⟨JVal.str ts ::
      qs.map (fun q2 => (alistGet ((alistGet tbl ts).getD []) q2).getD (.str "")), ?_, ?_, ?_, ?_⟩
  · simp only [export_combined_csv, List.tail_cons]
    exact List.mem_map_of_mem _ hmem
  · rfl
  · intro p hp
    simp [List.getElem?_map, hq, cellGet] at hp ⊢
    simp [hp]
  · intro hp
    simp [List.getElem?_map, hq, cellGet] at hp ⊢
    simp [hp]

/-- C6 witness: a one-cell table rendered against a two-question header. -/
theorem c6_sparse_cells_witness :
    ∃ row ∈ (export_combined_csv [("T", [(JVal.str "Q", JVal.num 1)])]
        [JVal.str "R", JVal.str "Q"]).tail,
      row.head? = some (.str "T")
      ∧ (∀ p, cellGet [("T", [(JVal.str "Q", JVal.num 1)])] "T" (JVal.str "R") = some p →
          row[1]? = some p)
      ∧ (cellGet [("T", [(JVal.str "Q", JVal.num 1)])] "T" (JVal.str "R") = none →
          row[1]? = some (.str "")) :=
  c6_sparse_cells [("T", [(JVal.str "Q", JVal.num 1)])] [JVal.str "R", JVal.str "Q"]
    "T" (JVal.str "R") 0 (by decide) (by decide)

/-- C9: cells are keyed by the question value alone, so two markets sharing
a question merge into one logical column: every exported row (header
included) carries identical values at any two header positions holding the
same question; a later `aggPut` at the same (timestamp, question) cell
overwrites the earlier market's price; and the two-market same-question
event renders the duplicated header and the merged (later) price in both
columns. -/
theorem c9_duplicate_questions_merge :
    (∀ (tbl : AggTable) (qs : List JVal) (i j : Nat) (q : JVal) (row : List JVal),
      row ∈ export_combined_csv tbl qs → qs[i]? = some q → qs[j]? = some q →
      row[i+1]? = row[j+1]?)
  ∧ (∀ (tbl tbl2 : AggTable) (ts : String) (q p : JVal),
      aggPut tbl ts q p = .ok tbl2 → cellGet tbl2 ts q = some p)
  ∧ pipeline_main (.success dupQuestionEventBody) dupQuestionPriceResp =
      .ok (some [[.str "Timestamp (ET)", .str "Q", .str "Q"],
                 [.str "2023-11-14 17:13:20 ET", .num (mkRat 21 50), .num (mkRat 21 50)]]) := by
  refine ⟨?_, ?_, by decide⟩
  · intro tbl qs i j q row hrow hi hj
    simp only [export_combined_csv, List.mem_cons] at hrow
    rcases hrow with hrow | hrow
    · subst hrow
      simp [List.getElem?_cons_succ, hi, hj]
    · obtain ⟨ts, hts, rfl⟩ := List.mem_map.mp hrow
      simp [List.getElem?_map, hi, hj]
  · intro tbl tbl2 ts q p hput
    have htbl2 : tbl2 = alistSet tbl ts (alistSet ((alistGet tbl ts).getD []) q p) := by
      cases q <;> simp [aggPut] at hput <;> exact hput.symm
    rw [htbl2]
    simp [cellGet, alistGet_alistSet_self]

/-- C9 witness: the duplicated header of the merged export renders equal
cells at both positions of the shared question. -/
theorem c9_duplicate_questions_merge_witness :
    ([JVal.str "Timestamp (ET)", JVal.str "Q", JVal.str "Q"] : List JVal)[1]? =
      ([JVal.str "Timestamp (ET)", JVal.str "Q", JVal.str "Q"] : List JVal)[2]? :=
  c9_duplicate_questions_merge.1 [] [JVal.str "Q", JVal.str "Q"] 0 1 (JVal.str "Q")
    [JVal.str "Timestamp (ET)", JVal.str "Q", JVal.str "Q"]
    (by decide) (by decide) (by decide)

/-- C4 counterexample: two price points of one market in the same Eastern
minute (17:13) but different seconds occupy two distinct timestamp keys —
the normalized format keeps seconds — so the series `[(t0, 0.40), (t1,
0.42)]` does not collapse to one cell 0.42: the t0 cell still holds 0.40. -/
theorem c4_same_minute_counterexample :
    convert_to_eastern 1700000000 ≠ convert_to_eastern 1700000010
  ∧ (convert_to_eastern 1700000000).data.take 16 =
      (convert_to_eastern 1700000010).data.take 16
  ∧ ingest (.str "Q") [] [point40, point42] =
      .ok [("2023-11-14 17:13:20 ET", [(JVal.str "Q", JVal.num (mkRat 2 5))]),
           ("2023-11-14 17:13:30 ET", [(JVal.str "Q", JVal.num (mkRat 21 50))])]
  ∧ cellGet [("2023-11-14 17:13:20 ET", [(JVal.str "Q", JVal.num (mkRat 2 5))]),
           ("2023-11-14 17:13:30 ET", [(JVal.str "Q", JVal.num (mkRat 21 50))])]
      "2023-11-14 17:13:20 ET" (JVal.str "Q") = some (JVal.num (mkRat 2 5)) := by
  decide

/-- C4 (amended): every aggregation step preserves the at-most-one-price
invariant (both dict levels keep unique keys); when two points of one
market normalize to the same timestamp key — same Eastern-time second,
which for distinct Unix timestamps happens through the DST fall-back
overlap — the later point in fetch order wins, as in the 2025-11-02
example where 01:40:00 EDT and 01:40:00 EST share a key and the series
`[(t0, 0.40), (t0+3600, 0.42)]` yields the single cell 0.42. -/
theorem c4_invariant_last_write_wins :
    (∀ (tbl : AggTable) (ts : String) (q p : JVal) (tbl2 : AggTable),
      aggPut tbl ts q p = .ok tbl2 → tableWF tbl → tableWF tbl2)
  ∧ (∀ (tbl tbl1 tbl2 : AggTable) (ts : String) (q p1 p2 : JVal),
      aggPut tbl ts q p1 = .ok tbl1 → aggPut tbl1 ts q p2 = .ok tbl2 →
      cellGet tbl2 ts q = some p2)
  ∧ convert_to_eastern 1762062000 = convert_to_eastern 1762065600
  ∧ ingest (.str "Q") [] [dstPoint40, dstPoint42] =
      .ok [("2025-11-02 01:40:00 ET", [(JVal.str "Q", JVal.num (mkRat 21 50))])] := by
  refine ⟨?_, ?_, by decide, by decide⟩
  · intro tbl ts q p tbl2 hput hwf
    have htbl2 : tbl2 = alistSet tbl ts (alistSet ((alistGet tbl ts).getD []) q p) := by
      cases q <;> simp [aggPut] at hput <;> exact hput.symm
    rw [htbl2]
    constructor
    · exact nodup_map_fst_alistSet _ _ _ hwf.1
    · intro inner hin
      rcases mem_map_snd_alistSet _ _ _ _ hin with hmem | heq
      · exact hwf.2 inner hmem
      · subst heq
        apply nodup_map_fst_alistSet
        cases hg : alistGet tbl ts with
        | none => simp
        | some old =>
          simp only [hg, Option.getD_some]
          exact hwf.2 old (alistGet_mem_map_snd _ _ _ hg)
  · intro tbl tbl1 tbl2 ts q p1 p2 hput1 hput2
    have htbl2 : tbl2 = alistSet tbl1 ts (alistSet ((alistGet tbl1 ts).getD []) q p2) := by
      cases q <;> simp [aggPut] at hput2 <;> exact hput2.symm
    rw [htbl2]
    simp [cellGet, alistGet_alistSet_self]

/-- C4 witness: two successive puts at one cell leave the later price. -/
theorem c4_invariant_last_write_wins_witness :
    cellGet [("T", [(JVal.str "Q", JVal.num (mkRat 21 50))])] "T" (JVal.str "Q") =
      some (JVal.num (mkRat 21 50)) :=
  c4_invariant_last_write_wins.2.1 [] [("T", [(JVal.str "Q", JVal.num (mkRat 2 5))])]
    [("T", [(JVal.str "Q", JVal.num (mkRat 21 50))])] "T" (JVal.str "Q")
    (JVal.num (mkRat 2 5)) (JVal.num (mkRat 21 50)) (by decide) (by decide)

/-- C7: the two-market example end to end — Q1 (token 111) with one point
(t = 1700000000, p = 0.5), Q2 (token 222) with an empty history — exports
the header `Timestamp (ET), Q1, Q2` and the single data row with Q1's
normalized timestamp, price 0.5, and an empty Q2 cell. -/
theorem c7_end_to_end_example :
    pipeline_main (.success twoMarketEventBody) twoMarketPriceResp =
      .ok (some [[.str "Timestamp (ET)", .str "Q1", .str "Q2"],
                 [.str "2023-11-14 17:13:20 ET", .num (mkRat 1 2), .str ""]]) := by
  decide

/-- C2 counterexample: a 2xx price-history response whose body decodes to
the JSON value 5 — valid JSON, unexpected shape — makes
`fetch_historical_prices` raise `AttributeError` at `.get` instead of
returning the empty sequence, and the whole pipeline aborts with that
exception. -/
theorem c2_unexpected_shape_counterexample :
    fetch_historical_prices (.success "5") = .error .attributeError
  ∧ pipeline_main (.success twoMarketEventBody) (fun _ => .success "5") =
      .error .attributeError := by
  decide

/-- C2 (amended): on transport errors, non-2xx statuses and JSON-decode
failures both fetches return their typed failure (None for the event
fetch, [] for the price-history fetch); only a successfully decoded body
of unexpected shape can escape as an uncaught exception. -/
theorem c2_typed_fetch_failures :
    fetch_event_data .failure = none
  ∧ fetch_historical_prices .failure = .ok (.arr .nil)
  ∧ (∀ body : String, parseJson body = .error () →
      fetch_event_data (.success body) = none
      ∧ fetch_historical_prices (.success body) = .ok (.arr .nil)) := by
  refine ⟨rfl, rfl, ?_⟩
  intro body hb
  exact ⟨by simp [fetch_event_data, hb], by simp [fetch_historical_prices, hb]⟩

/-- C2 witness: the undecodable body "not-json". -/
theorem c2_typed_fetch_failures_witness :
    fetch_event_data (.success "not-json") = none
    ∧ fetch_historical_prices (.success "not-json") = .ok (.arr .nil) :=
  c2_typed_fetch_failures.2.2 "not-json" (by decide)

theorem daysInYear_ge (y : Nat) : 365 ≤ daysInYear y := by
  unfold daysInYear; split <;> omega

theorem daysInMonth_le (y m : Nat) : daysInMonth y m ≤ 31 := by
  unfold daysInMonth
  split <;> first | (split <;> omega) | omega

theorem daysInMonth_pos (y m : Nat) : 1 ≤ daysInMonth y m := by
  unfold daysInMonth
  split <;> first | (split <;> omega) | omega

theorem daysBeforeMonth_succ (y m : Nat) (h : 1 ≤ m) :
    daysBeforeMonth y (m + 1) = daysBeforeMonth y m + daysInMonth y m := by
  cases m with
  | zero => omega
  | succ k => rfl

theorem daysBeforeMonth_step (y m : Nat) :
    daysBeforeMonth y m ≤ daysBeforeMonth y (m + 1) := by
  cases m with
  | zero => simp [daysBeforeMonth]
  | succ k => simp [daysBeforeMonth]

theorem daysBeforeMonth_mono (y : Nat) {m m2 : Nat} (h : m ≤ m2) :
    daysBeforeMonth y m ≤ daysBeforeMonth y m2 := by
  induction m2 with
  | zero => simp_all
  | succ k ih =>
    rcases Nat.lt_or_ge m (k+1) with hlt | hge
    · exact le_trans (ih (by omega)) (daysBeforeMonth_step y k)
    · have : m = k + 1 := by omega
      simp [this]

theorem daysBeforeMonth_13 (y : Nat) : daysBeforeMonth y 13 = daysInYear y := by
  have e12 : daysBeforeMonth y 13 = daysBeforeMonth y 12 + daysInMonth y 12 := rfl
  have e11 : daysBeforeMonth y 12 = daysBeforeMonth y 11 + daysInMonth y 11 := rfl
  have e10 : daysBeforeMonth y 11 = daysBeforeMonth y 10 + daysInMonth y 10 := rfl
  have e9 : daysBeforeMonth y 10 = daysBeforeMonth y 9 + daysInMonth y 9 := rfl
  have e8 : daysBeforeMonth y 9 = daysBeforeMonth y 8 + daysInMonth y 8 := rfl
  have e7 : daysBeforeMonth y 8 = daysBeforeMonth y 7 + daysInMonth y 7 := rfl
  have e6 : daysBeforeMonth y 7 = daysBeforeMonth y 6 + daysInMonth y 6 := rfl
  have e5 : daysBeforeMonth y 6 = daysBeforeMonth y 5 + daysInMonth y 5 := rfl
  have e4 : daysBeforeMonth y 5 = daysBeforeMonth y 4 + daysInMonth y 4 := rfl
  have e3 : daysBeforeMonth y 4 = daysBeforeMonth y 3 + daysInMonth y 3 := rfl
  have e2 : daysBeforeMonth y 3 = daysBeforeMonth y 2 + daysInMonth y 2 := rfl
  have e1 : daysBeforeMonth y 2 = daysBeforeMonth y 1 + daysInMonth y 1 := rfl
  have e0 : daysBeforeMonth y 1 = 0 := rfl
  have d1 : daysInMonth y 1 = 31 := rfl
  have d3 : daysInMonth y 3 = 31 := rfl
  have d4 : daysInMonth y 4 = 30 := rfl
  have d5 : daysInMonth y 5 = 31 := rfl
  have d6 : daysInMonth y 6 = 30 := rfl
  have d7 : daysInMonth y 7 = 31 := rfl
  have d8 : daysInMonth y 8 = 31 := rfl
  have d9 : daysInMonth y 9 = 30 := rfl
  have d10 : daysInMonth y 10 = 31 := rfl
  have d11 : daysInMonth y 11 = 30 := rfl
  have d12 : daysInMonth y 12 = 31 := rfl
  by_cases h : isLeap y = true
  · have d2 : daysInMonth y 2 = 29 := by simp [daysInMonth, h]
    have hy : daysInYear y = 366 := by simp [daysInYear, h]
    omega
  · have d2 : daysInMonth y 2 = 28 := by simp [daysInMonth, h]
    have hy : daysInYear y = 365 := by simp [daysInYear, h]
    omega

theorem yearDaysFrom_succ (base n : Nat) :
    yearDaysFrom base (n + 1) = yearDaysFrom base n + daysInYear (base + n) := rfl

theorem yStart_succ (y : Nat) (h : 1970 ≤ y) :
    yStart (y + 1) = yStart y + daysInYear y := by
  unfold yStart
  have h1 : y + 1 - 1970 = (y - 1970) + 1 := by omega
  rw [h1, yearDaysFrom_succ]
  have h2 : 1970 + (y - 1970) = y := by omega
  rw [h2]

theorem yStart_mono {y y2 : Nat} (h0 : 1970 ≤ y) (h : y ≤ y2) :
    yStart y ≤ yStart y2 := by
  induction y2 with
  | zero => omega
  | succ k ih =>
    rcases Nat.lt_or_ge y (k+1) with hlt | hge
    · have hk : 1970 ≤ k := by omega
      have := yStart_succ k hk
      have := ih (by omega)
      omega
    · have : y = k + 1 := by omega
      simp [this]

theorem yStart_lower (y : Nat) (h : 1970 ≤ y) : 365 * (y - 1970) ≤ yStart y := by
  unfold yStart
  generalize y - 1970 = n
  induction n with
  | zero => simp [yearDaysFrom]
  | succ k ih =>
    have := daysInYear_ge (1970 + k)
    rw [yearDaysFrom_succ]
    omega

theorem yearFromDays_spec :
    ∀ (fuel y0 d : Nat), 1970 ≤ y0 → d < 365 * fuel →
      1970 ≤ (yearFromDays fuel y0 d).1
      ∧ y0 ≤ (yearFromDays fuel y0 d).1
      ∧ (yearFromDays fuel y0 d).2 < daysInYear (yearFromDays fuel y0 d).1
      ∧ yStart (yearFromDays fuel y0 d).1 + (yearFromDays fuel y0 d).2 = yStart y0 + d := by
  intro fuel
  induction fuel with
  | zero => intro y0 d h0 h; omega
  | succ k ih =>
    intro y0 d h0 h
    by_cases hd : d < daysInYear y0
    · simp [yearFromDays, hd, h0]
    · have hge : daysInYear y0 ≤ d := by omega
      have h365 := daysInYear_ge y0
      have hrec := ih (y0 + 1) (d - daysInYear y0) (by omega) (by omega)
      have hstep : yStart (y0 + 1) = yStart y0 + daysInYear y0 := yStart_succ y0 h0
      simp only [yearFromDays, hd, if_false]
      refine ⟨hrec.1, by omega, hrec.2.2.1, by omega⟩

theorem monthFromDoy_spec (y : Nat) :
    ∀ (fuel m d : Nat), 1 ≤ m →
      d + daysBeforeMonth y m < daysBeforeMonth y (m + fuel) →
      1 ≤ (monthFromDoy y fuel m d).1
      ∧ (monthFromDoy y fuel m d).1 < m + fuel
      ∧ (monthFromDoy y fuel m d).2 < daysInMonth y (monthFromDoy y fuel m d).1
      ∧ daysBeforeMonth y (monthFromDoy y fuel m d).1 + (monthFromDoy y fuel m d).2
          = daysBeforeMonth y m + d := by
  intro fuel
  induction fuel with
  | zero => intro m d hm h; simp only [Nat.add_zero] at h; omega
  | succ k ih =>
    intro m d hm h
    by_cases hd : d < daysInMonth y m
    · have hres : monthFromDoy y (k+1) m d = (m, d) := by
        simp [monthFromDoy, hd]
      rw [hres]
      exact ⟨hm, by show m < m + (k+1); omega, hd, rfl⟩
    · have hge : daysInMonth y m ≤ d := by omega
      have hsucc : daysBeforeMonth y (m + 1) = daysBeforeMonth y m + daysInMonth y m :=
        daysBeforeMonth_succ y m hm
      have hrec := ih (m + 1) (d - daysInMonth y m) (by omega)
        (by rw [show m + 1 + k = m + (k + 1) by omega]; omega)
      have hres : monthFromDoy y (k+1) m d = monthFromDoy y k (m+1) (d - daysInMonth y m) := by
        simp [monthFromDoy, hd]
      rw [hres]
      exact ⟨hrec.1, by omega, hrec.2.2.1, by omega⟩

theorem civilFromSeconds_spec (ls : Nat) (h : ls ≤ maxModeledTs) :
    validCivil (civilFromSeconds ls)
    ∧ (civilFromSeconds ls).year ≤ 9999
    ∧ secondsFromCivil (civilFromSeconds ls) = ls := by
  have hdmax : ls / 86400 ≤ 2930584 := by
    have h1 : ls / 86400 ≤ maxModeledTs / 86400 := Nat.div_le_div_right h
    have h2 : maxModeledTs / 86400 = 2930584 := by norm_num [maxModeledTs]
    omega
  have hdays : ls / 86400 < 365 * yearFuel := by
    have : (365 : Nat) * yearFuel = 3285000 := by norm_num [yearFuel]
    omega
  have hys := yearFromDays_spec yearFuel 1970 (ls / 86400) (by omega) hdays
  obtain ⟨hy1970, _, hdoy, hsum⟩ := hys
  have hy0 : yStart 1970 = 0 := rfl
  rw [hy0] at hsum
  have hyb : (yearFromDays yearFuel 1970 (ls / 86400)).1 ≤ 9999 := by
    by_contra hgt
    have hlow := yStart_lower (yearFromDays yearFuel 1970 (ls / 86400)).1 (by omega)
    omega
  have hpre : (yearFromDays yearFuel 1970 (ls / 86400)).2 +
      daysBeforeMonth (yearFromDays yearFuel 1970 (ls / 86400)).1 1 <
      daysBeforeMonth (yearFromDays yearFuel 1970 (ls / 86400)).1 (1 + 12) := by
    have hb1 : daysBeforeMonth (yearFromDays yearFuel 1970 (ls / 86400)).1 1 = 0 := rfl
    have h13 : (1 : Nat) + 12 = 13 := rfl
    rw [hb1, h13, daysBeforeMonth_13]
    omega
  have hmo := monthFromDoy_spec (yearFromDays yearFuel 1970 (ls / 86400)).1 12 1
    (yearFromDays yearFuel 1970 (ls / 86400)).2 (by omega) hpre
  obtain ⟨hm1, hm13, hd0, hmsum⟩ := hmo
  have hb1 : daysBeforeMonth (yearFromDays yearFuel 1970 (ls / 86400)).1 1 = 0 := rfl
  rw [hb1] at hmsum
  have hc : civilFromSeconds ls =
      ⟨(yearFromDays yearFuel 1970 (ls / 86400)).1,
       (monthFromDoy (yearFromDays yearFuel 1970 (ls / 86400)).1 12 1
          (yearFromDays yearFuel 1970 (ls / 86400)).2).1,
       (monthFromDoy (yearFromDays yearFuel 1970 (ls / 86400)).1 12 1
          (yearFromDays yearFuel 1970 (ls / 86400)).2).2 + 1,
       ls % 86400 / 3600, ls % 86400 % 3600 / 60, ls % 86400 % 60⟩ := rfl
  rw [hc]
  dsimp only [validCivil, secondsFromCivil, daysFromCivil]
  refine ⟨⟨hy1970, hm1, by omega, by omega, by omega, by omega, by omega, by omega⟩,
    hyb, ?_⟩
  omega

theorem secondsFromCivil_strictMono (c1 c2 : Civil) (h1 : validCivil c1) (h2 : validCivil c2)
    (hk : civilKey c1 < civilKey c2) : secondsFromCivil c1 < secondsFromCivil c2 := by
  obtain ⟨hy1, hm1a, hm1b, hd1a, hd1b, hh1, hmi1, hs1⟩ := h1
  obtain ⟨hy2, hm2a, hm2b, hd2a, hd2b, hh2, hmi2, hs2⟩ := h2
  have hdm1 := daysInMonth_le c1.year c1.month
  have hdm2 := daysInMonth_le c2.year c2.month
  have hlex : c1.year < c2.year
      ∨ (c1.year = c2.year ∧ c1.month < c2.month)
      ∨ (c1.year = c2.year ∧ c1.month = c2.month ∧ c1.day < c2.day)
      ∨ (c1.year = c2.year ∧ c1.month = c2.month ∧ c1.day = c2.day ∧
          c1.hour * 3600 + c1.minute * 60 + c1.second <
          c2.hour * 3600 + c2.minute * 60 + c2.second) := by
    unfold civilKey at hk
    omega
  have ht1 : c1.hour * 3600 + c1.minute * 60 + c1.second < 86400 := by omega
  have ht2 : c2.hour * 3600 + c2.minute * 60 + c2.second < 86400 := by omega
  rcases hlex with hy | ⟨hyy, hm⟩ | ⟨hyy, hmm, hd⟩ | ⟨hyy, hmm, hdd, ht⟩
  · have hup : daysFromCivil c1.year c1.month c1.day < yStart (c1.year + 1) := by
      have hmono := daysBeforeMonth_mono c1.year (show c1.month + 1 ≤ 13 by omega)
      have hsucc := daysBeforeMonth_succ c1.year c1.month (by omega)
      have h13 := daysBeforeMonth_13 c1.year
      have hys := yStart_succ c1.year hy1
      unfold daysFromCivil
      omega
    have hmono := yStart_mono (show (1970:Nat) ≤ c1.year + 1 by omega)
      (show c1.year + 1 ≤ c2.year by omega)
    have hlow : yStart c2.year ≤ daysFromCivil c2.year c2.month c2.day := by
      unfold daysFromCivil; omega
    unfold secondsFromCivil
    omega
  · have hsucc := daysBeforeMonth_succ c1.year c1.month (by omega)
    have hmono := daysBeforeMonth_mono c1.year (show c1.month + 1 ≤ c2.month by omega)
    unfold secondsFromCivil daysFromCivil
    rw [hyy] at hsucc hmono hd1b ⊢
    omega
  · unfold secondsFromCivil daysFromCivil
    rw [hyy, hmm] at *
    omega
  · unfold secondsFromCivil daysFromCivil
    rw [hyy, hmm, hdd] at *
    omega

theorem char_list_lt_cons_iff (x y : Char) (l1 l2 : List Char) :
    (x :: l1) < (y :: l2) ↔ x < y ∨ (x = y ∧ l1 < l2) := by
  show List.Lex _ _ _ ↔ _
  constructor
  · intro h
    cases h with
    | cons h => exact Or.inr ⟨rfl, h⟩
    | rel h => exact Or.inl h
  · intro h
    rcases h with h | ⟨rfl, h⟩
    · exact List.Lex.rel h
    · exact List.Lex.cons h

theorem char_list_lt_append_iff (a1 : List Char) :
    ∀ (a2 : List Char) (r1 r2 : List Char), a1.length = a2.length →
    ((a1 ++ r1) < (a2 ++ r2) ↔ a1 < a2 ∨ (a1 = a2 ∧ r1 < r2)) := by
  induction a1 with
  | nil =>
    intro a2 r1 r2 h
    cases a2 with
    | nil =>
      simp only [List.nil_append]
      constructor
      · intro hr; exact Or.inr ⟨by simp, hr⟩
      · intro hr
        rcases hr with hr | ⟨_, hr⟩
        · exact absurd hr (List.Lex.not_nil_right _ _)
        · exact hr
    | cons b bs => simp at h
  | cons x xs ih =>
    intro a2 r1 r2 h
    cases a2 with
    | nil => simp at h
    | cons y ys =>
      simp only [List.cons_append]
      rw [char_list_lt_cons_iff, char_list_lt_cons_iff,
        ih ys r1 r2 (by simpa using h)]
      constructor
      · rintro (hxy | ⟨rfl, hlex | ⟨rfl, hr⟩⟩)
        · exact Or.inl (Or.inl hxy)
        · exact Or.inl (Or.inr ⟨rfl, hlex⟩)
        · exact Or.inr ⟨rfl, hr⟩
      · rintro ((hxy | ⟨rfl, hlex⟩) | ⟨heq, hr⟩)
        · exact Or.inl hxy
        · exact Or.inr ⟨rfl, Or.inl hlex⟩
        · injection heq with h1 h2
          subst h1; subst h2
          exact Or.inr ⟨rfl, Or.inr ⟨rfl, hr⟩⟩

set_option maxRecDepth 8000 in
theorem pad2_lt_iff : ∀ (a : Nat), a < 100 → ∀ (b : Nat), b < 100 →
    ((pad2 a).data < (pad2 b).data ↔ a < b) := by decide

set_option maxRecDepth 8000 in
theorem pad2_eq_iff : ∀ (a : Nat), a < 100 → ∀ (b : Nat), b < 100 →
    ((pad2 a).data = (pad2 b).data ↔ a = b) := by decide

theorem pad4_data (n : Nat) :
    (pad4 n).data = (pad2 (n / 100)).data ++ (pad2 (n % 100)).data := by
  simp [pad4, String.data_append]

theorem pad4_lt_iff (a b : Nat) (ha : a < 10000) (hb : b < 10000) :
    ((pad4 a).data < (pad4 b).data ↔ a < b) := by
  rw [pad4_data, pad4_data,
    char_list_lt_append_iff (pad2 (a / 100)).data (pad2 (b / 100)).data
      (pad2 (a % 100)).data (pad2 (b % 100)).data rfl,
    pad2_lt_iff _ (by omega) _ (by omega), pad2_eq_iff _ (by omega) _ (by omega),
    pad2_lt_iff _ (by omega) _ (by omega)]
  omega

theorem pad4_eq_iff (a b : Nat) (ha : a < 10000) (hb : b < 10000) :
    ((pad4 a).data = (pad4 b).data ↔ a = b) := by
  rw [pad4_data, pad4_data]
  constructor
  · intro h
    have hlen : ((pad2 (a / 100)).data).length = ((pad2 (b / 100)).data).length := rfl
    obtain ⟨h1, h2⟩ := List.append_inj h hlen
    have e1 := (pad2_eq_iff _ (by omega) _ (by omega)).mp h1
    have e2 := (pad2_eq_iff _ (by omega) _ (by omega)).mp h2
    omega
  · intro h; rw [h]

theorem pad2_block_lt_iff (se : Char) (x y : Nat) (r1 r2 : List Char)
    (hx : x < 100) (hy : y < 100) :
    ((se :: ((pad2 x).data ++ r1)) < (se :: ((pad2 y).data ++ r2))) ↔
      (x < y ∨ (x = y ∧ r1 < r2)) := by
  rw [char_list_lt_cons_iff,
    char_list_lt_append_iff (pad2 x).data (pad2 y).data r1 r2 rfl,
    pad2_lt_iff _ hx _ hy, pad2_eq_iff _ hx _ hy]
  simp [lt_self_iff_false]

theorem fmtCivil_data (c : Civil) : (fmtCivil c ++ " ET").data =
    (pad4 c.year).data ++ ('-' :: ((pad2 c.month).data ++ ('-' :: ((pad2 c.day).data ++
      (' ' :: ((pad2 c.hour).data ++ (':' :: ((pad2 c.minute).data ++
      (':' :: ((pad2 c.second).data ++ [' ', 'E', 'T'])))))))))) := by
  simp [fmtCivil, String.data_append, List.append_assoc]

set_option maxHeartbeats 2000000 in
theorem fmt_lt_iff_key (c1 c2 : Civil) (h1 : validCivil c1) (h2 : validCivil c2)
    (hy1 : c1.year ≤ 9999) (hy2 : c2.year ≤ 9999) :
    ((fmtCivil c1 ++ " ET") < (fmtCivil c2 ++ " ET") ↔ civilKey c1 < civilKey c2) := by
  obtain ⟨hcy1, hm1a, hm1b, hd1a, hd1b, hh1, hmi1, hs1⟩ := h1
  obtain ⟨hcy2, hm2a, hm2b, hd2a, hd2b, hh2, hmi2, hs2⟩ := h2
  have hdm1 := daysInMonth_le c1.year c1.month
  have hdm2 := daysInMonth_le c2.year c2.month
  rw [String.lt_iff_toList_lt]
  show (fmtCivil c1 ++ " ET").data < (fmtCivil c2 ++ " ET").data ↔ _
  rw [fmtCivil_data, fmtCivil_data,
    char_list_lt_append_iff (pad4 c1.year).data (pad4 c2.year).data _ _ rfl,
    pad4_lt_iff _ _ (by omega) (by omega), pad4_eq_iff _ _ (by omega) (by omega),
    pad2_block_lt_iff _ _ _ _ _ (by omega) (by omega),
    pad2_block_lt_iff _ _ _ _ _ (by omega) (by omega),
    pad2_block_lt_iff _ _ _ _ _ (by omega) (by omega),
    pad2_block_lt_iff _ _ _ _ _ (by omega) (by omega),
    pad2_block_lt_iff _ _ _ _ _ (by omega) (by omega)]
  have htail : ¬ (([' ', 'E', 'T'] : List Char) < [' ', 'E', 'T']) := lt_irrefl _
  unfold civilKey
  constructor
  · rintro (hy | ⟨hyy, hm | ⟨hmm, hd | ⟨hdd, hh | ⟨hhh, hmi | ⟨hmimi, hs | ⟨hss, htl⟩⟩⟩⟩⟩⟩)
    · omega
    · omega
    · omega
    · omega
    · omega
    · omega
    · exact absurd htl htail
  · intro hk
    have hlex : c1.year < c2.year
        ∨ (c1.year = c2.year ∧ c1.month < c2.month)
        ∨ (c1.year = c2.year ∧ c1.month = c2.month ∧ c1.day < c2.day)
        ∨ (c1.year = c2.year ∧ c1.month = c2.month ∧ c1.day = c2.day ∧ c1.hour < c2.hour)
        ∨ (c1.year = c2.year ∧ c1.month = c2.month ∧ c1.day = c2.day ∧ c1.hour = c2.hour
            ∧ c1.minute < c2.minute)
        ∨ (c1.year = c2.year ∧ c1.month = c2.month ∧ c1.day = c2.day ∧ c1.hour = c2.hour
            ∧ c1.minute = c2.minute ∧ c1.second < c2.second) := by
      omega
    tauto

theorem eastern_offset_bounds (t : Nat) :
    -18000 ≤ eastern_offset t ∧ eastern_offset t ≤ -14400 := by
  unfold eastern_offset
  dsimp only
  split <;> omega

theorem easternLocalSeconds_mono {t1 t2 : Nat} (h0 : 18000 ≤ t1) (h12 : t1 ≤ t2)
    (hoff : eastern_offset t1 ≤ eastern_offset t2) :
    easternLocalSeconds t1 ≤ easternLocalSeconds t2 := by
  have hb1 := eastern_offset_bounds t1
  have hb2 := eastern_offset_bounds t2
  unfold easternLocalSeconds
  omega

theorem easternLocalSeconds_le (t : Nat) : easternLocalSeconds t ≤ t := by
  have hb := eastern_offset_bounds t
  unfold easternLocalSeconds
  omega

theorem convert_to_eastern_mono (t1 t2 : Nat) (h0 : 18000 ≤ t1) (h12 : t1 ≤ t2)
    (hmax : t2 ≤ maxModeledTs) (hoff : eastern_offset t1 ≤ eastern_offset t2) :
    convert_to_eastern t1 ≤ convert_to_eastern t2 := by
  have hls : easternLocalSeconds t1 ≤ easternLocalSeconds t2 :=
    easternLocalSeconds_mono h0 h12 hoff
  have hle2 : easternLocalSeconds t2 ≤ maxModeledTs :=
    le_trans (easternLocalSeconds_le t2) hmax
  have hle1 : easternLocalSeconds t1 ≤ maxModeledTs := by omega
  obtain ⟨hv1, hy1, hrt1⟩ := civilFromSeconds_spec _ hle1
  obtain ⟨hv2, hy2, hrt2⟩ := civilFromSeconds_spec _ hle2
  by_contra hlt
  rw [not_le] at hlt
  unfold convert_to_eastern at hlt
  rw [fmt_lt_iff_key _ _ hv2 hv1 hy2 hy1] at hlt
  have hsec := secondsFromCivil_strictMono _ _ hv2 hv1 hlt
  rw [hrt1, hrt2] at hsec
  omega

theorem export_rows_sorted (tbl : AggTable) (qs : List JVal) :
    List.Sorted (fun a b : String => a ≤ b)
      (rowTimestamps (export_combined_csv tbl qs)) := by
  haveI htot : IsTotal String (fun a b => a.data ≤ b.data) :=
    ⟨fun a b => le_total a.data b.data⟩
  haveI htr : IsTrans String (fun a b => a.data ≤ b.data) :=
    ⟨fun a b c hab hbc => le_trans hab hbc⟩
  have hsorted := List.sorted_insertionSort (fun a b : String => a.data ≤ b.data)
    (tbl.map Prod.fst)
  have heq : rowTimestamps (export_combined_csv tbl qs) =
      List.insertionSort (fun a b : String => a.data ≤ b.data) (tbl.map Prod.fst) := by
    simp only [rowTimestamps, export_combined_csv, List.tail_cons, List.map_map]
    generalize List.insertionSort (fun a b : String => a.data ≤ b.data)
      (tbl.map Prod.fst) = L
    induction L with
    | nil => rfl
    | cons a l ihl => simp [Function.comp, rowTs, ihl]
  rw [heq]
  exact List.Pairwise.imp (fun hab => String.le_iff_toList_le.mpr hab) hsorted

/-- C1 counterexample: across the 2025 DST fall-back, 05:40 UTC (01:40:00
EDT) precedes 06:00 UTC (01:00:00 EST) chronologically, yet its normalized
string is lexicographically greater — lexicographic order of the formatted
strings does not coincide with chronological order of the timestamps. -/
theorem c1_dst_fallback_counterexample :
    (1762062000 : Nat) ≤ 1762063200
    ∧ ¬ (convert_to_eastern 1762062000 ≤ convert_to_eastern 1762063200) := by
  constructor
  · decide
  · rw [not_le, String.lt_iff_toList_lt]
    show (convert_to_eastern 1762063200).data < (convert_to_eastern 1762062000).data
    decide

/-- C1 (amended): the exporter emits data rows sorted non-decreasing by the
literal timestamp string, and normalization is monotone w.r.t. the
chronological order for every pair of timestamps whose Eastern UTC offsets
are non-decreasing (equivalently, pairs not straddling a DST fall-back)
within the modeled domain; across a fall-back the string order can invert,
as the counterexample shows. -/
theorem c1_sorted_rows_and_monotone_normalize (tbl : AggTable) (qs : List JVal)
    (t1 t2 : Nat) (h0 : 18000 ≤ t1) (h12 : t1 ≤ t2) (hmax : t2 ≤ maxModeledTs)
    (hoff : eastern_offset t1 ≤ eastern_offset t2) :
    List.Sorted (fun a b : String => a ≤ b)
      (rowTimestamps (export_combined_csv tbl qs))
    ∧ convert_to_eastern t1 ≤ convert_to_eastern t2 :=
  ⟨export_rows_sorted tbl qs, convert_to_eastern_mono t1 t2 h0 h12 hmax hoff⟩

/-- C1 witness: a concrete two-key table and the pair (1700000000,
1700000060), one minute apart inside EST. -/
theorem c1_sorted_rows_and_monotone_normalize_witness :
    List.Sorted (fun a b : String => a ≤ b)
      (rowTimestamps (export_combined_csv
        [("B", [(JVal.str "Q", JVal.num 1)]), ("A", [(JVal.str "Q", JVal.num 2)])]
        [JVal.str "Q"]))
    ∧ convert_to_eastern 1700000000 ≤ convert_to_eastern 1700000060 :=
  c1_sorted_rows_and_monotone_normalize
    [("B", [(JVal.str "Q", JVal.num 1)]), ("A", [(JVal.str "Q", JVal.num 2)])]
    [JVal.str "Q"] 1700000000 1700000060
    (by decide) (by decide) (by decide) (by decide)
